import Mathlib

/-!
Verification of the Game of Life board engine (`game/board.py`).

The board is a numpy `uint8` array subclass carrying extra attributes
(`_size`, `_previous_boards`, `_step`).  We embed the grid as a list of
rows of naturals, and the board as a structure holding the grid together
with the auxiliary attributes.  Cell access follows numpy indexing with
out-of-range reads defaulting to 0 (all real accesses are in range).
-/

/-- A grid: list of rows, each a list of cell values (0 = dead, 1 = alive). -/
abbrev Grid := List (List ℕ)

/-- Read entry `(i, j)` of a grid, defaulting to `0` out of range. -/
def idx (g : Grid) (i j : ℕ) : ℕ := (g.getD i []).getD j 0

/-- Build an `n × n` grid from an entry function. -/
def mkGrid (n : ℕ) (f : ℕ → ℕ → ℕ) : Grid :=
  (List.range n).map fun i => (List.range n).map fun j => f i j

/-- `MAX_PREVIOUS_BOARDS = 10` (board.py line 9). -/
def MAX_PREVIOUS_BOARDS : ℕ := 10

/-- The board state: the numpy array contents plus the attributes set in
`Board.__new__` (`_size`, `_previous_boards`, `_step`). -/
structure Board where
  size : ℕ
  cells : Grid
  previousBoards : List Grid
  step : ℤ
deriving DecidableEq

deriving instance DecidableEq for Except

/-- `Board.kernel`: 3×3 matrix of ones with a zero centre, read as a function
on kernel coordinates `u v ∈ {0,1,2}` (board.py lines 41–45). -/
def kernel (u v : ℕ) : ℕ := if u = 1 ∧ v = 1 then 0 else 1

/-- `Board.neighbors` (board.py lines 69–73):
`scipy.signal.convolve2d(self, kernel, mode="same", boundary="wrap")` on an
`n × n` array.  Entry `(i, j)` of a same-mode circular 2-D convolution with a
3×3 kernel is `Σ_{u,v ∈ {0,1,2}} kernel[u,v] · cells[(i+1-u) mod n, (j+1-v) mod n]`;
`i + (n + 1) - u` is the natural-number representative of `i + 1 - u`. -/
def neighbors (n : ℕ) (g : Grid) (i j : ℕ) : ℕ :=
  ∑ u ∈ Finset.range 3, ∑ v ∈ Finset.range 3,
    kernel u v * idx g ((i + (n + 1) - u) % n) ((j + (n + 1) - v) % n)

/-- Index one step up/left with toroidal wrap: `(i - 1) mod n` on naturals. -/
def wrapDec (n i : ℕ) : ℕ := (i + (n - 1)) % n

/-- Index one step down/right with toroidal wrap: `(i + 1) mod n`. -/
def wrapInc (n i : ℕ) : ℕ := (i + 1) % n

/-- Direct 8-neighbour summation with modular indexing — the specification's
reading of the neighbour count ("the count of live cells among its 8
surrounding neighbors, treating the grid as toroidal"). -/
def neighborCount (n : ℕ) (g : Grid) (i j : ℕ) : ℕ :=
  idx g (wrapDec n i) (wrapDec n j) + idx g (wrapDec n i) j +
    idx g (wrapDec n i) (wrapInc n j) + idx g i (wrapDec n j) +
    idx g i (wrapInc n j) + idx g (wrapInc n i) (wrapDec n j) +
    idx g (wrapInc n i) j + idx g (wrapInc n i) (wrapInc n j)

/-- One cell of `Board.next_step` (board.py lines 98–122): the nested
`np.where(dies, 0, np.where(stays_alive, 1, np.where(becomes_alive, 1, self)))`
with `dies = cnt < 2 ∨ cnt > 3`, `stays_alive = pop ∧ (cnt = 2 ∨ cnt = 3)`,
`becomes_alive = ¬pop ∧ cnt ≥ 3`, `pop = (cell ≠ 0)`, all masks computed from
the pre-transition grid. -/
def nextCell (n : ℕ) (g : Grid) (i j : ℕ) : ℕ :=
  if neighbors n g i j < 2 ∨ 3 < neighbors n g i j then 0
  else if idx g i j ≠ 0 ∧ (neighbors n g i j = 2 ∨ neighbors n g i j = 3) then 1
  else if ¬idx g i j ≠ 0 ∧ 3 ≤ neighbors n g i j then 1
  else idx g i j

/-- The whole-grid update of `Board.next_step`: every entry of the `n × n`
array is rewritten simultaneously from the pre-transition grid. -/
def nextGrid (n : ℕ) (g : Grid) : Grid := mkGrid n (nextCell n g)

/-- The `previous_boards` setter (board.py lines 61–67): when the list is
longer than `MAX_PREVIOUS_BOARDS` the oldest entry (index 0) is deleted,
then the snapshot is appended. -/
def pushHistory (hist : List Grid) (g : Grid) : List Grid :=
  (if MAX_PREVIOUS_BOARDS < hist.length then hist.drop 1 else hist) ++ [g]

namespace Board

/-- `Board.__new__` on a nonnegative requested size: a `size × size` grid of
zeros with `_previous_boards = []` and `_step = 0`. -/
def fresh (n : ℕ) : Board :=
  { size := n, cells := mkGrid n fun _ _ => 0, previousBoards := [], step := 0 }

/-- `Board.__new__` (board.py lines 17–23): no validation of its own;
`np.zeros((size, size))` raises `ValueError` for a negative size and
silently builds a degenerate array for size 0. -/
def make (size : ℤ) : Except String Board :=
  if size < 0 then Except.error "negative dimensions are not allowed"
  else Except.ok (fresh size.toNat)

/-- The `size` setter (board.py lines 51–55): rejects negative values,
stores the new value in `_size`, and touches nothing else. -/
def set_size (b : Board) (v : ℤ) : Except String Board :=
  if v < 0 then Except.error "Size cannot be negative"
  else Except.ok { b with size := v.toNat }

/-- The `step` setter (board.py lines 37–39): `self._step += value`. -/
def set_step (b : Board) (v : ℤ) : Board := { b with step := b.step + v }

/-- `Board.next_step` (board.py lines 98–122): push a snapshot of the current
grid through the `previous_boards` setter, then overwrite the grid in place
with the rule applied to the pre-transition state.  `_step` is not touched. -/
def next_step (b : Board) : Board :=
  { b with
    previousBoards := pushHistory b.previousBoards b.cells,
    cells := nextGrid b.cells.length b.cells }

/-- `Board.is_stable` (board.py lines 75–82): once `previous_boards` holds at
least `MAX_PREVIOUS_BOARDS` entries, test whether any stored snapshot equals
the current grid (`np.array_equal`: same shape and same entries, i.e.
structural equality of the row lists); otherwise `False`. -/
def is_stable (b : Board) : Bool :=
  if MAX_PREVIOUS_BOARDS ≤ b.previousBoards.length then
    b.previousBoards.any fun g => g = b.cells
  else false

/-- `Board.clear` (board.py line 89): `self[:] = 0`. -/
def clear (b : Board) : Board :=
  { b with cells := b.cells.map fun row => row.map fun _ => 0 }

/-- `Board.randomize_board` (board.py lines 91–96): `self[:]` is overwritten
with a fresh `size × size` 0/1 array; the random draw is abstracted as an
oracle `rnd`. -/
def randomize_board (b : Board) (rnd : ℕ → ℕ → Bool) : Board :=
  { b with cells := mkGrid b.size fun i j => if rnd i j then 1 else 0 }

/-- `Board.render_rich_table` (board.py lines 124–143): the table layout is
pure presentation; the one state change is `self.step = 1`, which goes
through the `step` setter. -/
def render_rich_table (b : Board) : Board := set_step b 1

end Board

/-- The raw 3×3 glider shape of `Board.make_glider` (board.py line 147). -/
def glider : Grid := [[0, 0, 1], [1, 0, 1], [0, 1, 1]]

/-- `np.pad(·, pad_width=1, constant_values=0)` on a rectangular grid
(board.py line 148). -/
def padone (g : Grid) : Grid :=
  List.replicate ((g.headD []).length + 2) 0 ::
    (g.map fun row => 0 :: (row ++ [0])) ++
      [List.replicate ((g.headD []).length + 2) 0]

/-- `np.rot90`: one counter-clockwise quarter turn,
`rot90(m)[i][j] = m[j][n-1-i]`, i.e. transpose then reverse the rows. -/
def rot90 (g : Grid) : Grid := g.transpose.reverse

/-- The padded glider after `k` quarter turns (`np.rot90(glider, k)` with
`k` drawn from `{0,1,2,3}`). -/
def gliderPatch (k : ℕ) : Grid := rot90^[k % 4] (padone glider)

/-- Numpy slice assignment `g[start:start+5, start:start+5] = patch`:
rows before `start` and from `start+5` on are kept, and in each written row
the columns before `start` and from `start+5` on are kept. -/
def sliceAssign (g : Grid) (start : ℕ) (patch : Grid) : Grid :=
  g.take start ++
    List.zipWith (fun row prow => row.take start ++ prow ++ row.drop (start + 5))
      ((g.drop start).take 5) patch ++
    g.drop (start + 5)

/-- `Board.make_glider` (board.py lines 145–156):
`np.random.randint(0, size - 4)` raises `ValueError` when `size - 4 ≤ 0`
(i.e. `size ≤ 4`); otherwise it returns some `start ∈ [0, size-5]`, modelled
as `s % (size - 4)` for an arbitrary oracle `s`, and the rotated padded
glider is slice-assigned at `(start, start)`. -/
def Board.make_glider (b : Board) (rot s : ℕ) : Except String Board :=
  if b.size ≤ 4 then Except.error "low >= high"
  else Except.ok
    { b with cells := sliceAssign b.cells (s % (b.size - 4)) (gliderPatch rot) }

/-- An `n × n` grid whose only live cells are the 2×2 block with top-left
corner `(i, j)`. -/
def blockGrid (n i j : ℕ) : Grid :=
  mkGrid n fun r c => if (r = i ∨ r = i + 1) ∧ (c = j ∨ c = j + 1) then 1 else 0

/-- A freshly constructed board holding exactly a 2×2 block of live cells. -/
def blockBoard (n i j : ℕ) : Board :=
  { size := n, cells := blockGrid n i j, previousBoards := [], step := 0 }

/-- Indicator of the two block rows (or columns) `{i, i+1}`. -/
def rowInd (i x : ℕ) : ℕ := if x = i ∨ x = i + 1 then 1 else 0

/-- The `cells`-dimensions invariant of the specification: the grid is
exactly `size × size`. -/
def dimsOk (b : Board) : Prop :=
  b.cells.length = b.size ∧ ∀ row ∈ b.cells, row.length = b.size

instance (b : Board) : Decidable (dimsOk b) := by
  unfold dimsOk
  infer_instance

/-! ### Basic grid lemmas -/

lemma mkGrid_length (n : ℕ) (f : ℕ → ℕ → ℕ) : (mkGrid n f).length = n := by
  simp [mkGrid]

lemma idx_mkGrid (n : ℕ) (f : ℕ → ℕ → ℕ) {i j : ℕ} (hi : i < n) (hj : j < n) :
    idx (mkGrid n f) i j = f i j := by
  unfold idx mkGrid
  simp [List.getD_eq_getElem?_getD, List.getElem?_range hi, List.getElem?_range hj]

lemma wrapDec_lt {n : ℕ} (hn : 0 < n) (i : ℕ) : wrapDec n i < n :=
  Nat.mod_lt _ hn

lemma wrapInc_lt {n : ℕ} (hn : 0 < n) (i : ℕ) : wrapInc n i < n :=
  Nat.mod_lt _ hn

lemma wrapDec_of_pos {n i : ℕ} (h0 : 0 < i) (h1 : i < n) : wrapDec n i = i - 1 := by
  unfold wrapDec
  have h : i + (n - 1) = n + (i - 1) := by omega
  rw [h, Nat.add_mod_left, Nat.mod_eq_of_lt (by omega)]

lemma wrapDec_zero {n : ℕ} (hn : 0 < n) : wrapDec n 0 = n - 1 := by
  unfold wrapDec
  rw [Nat.zero_add, Nat.mod_eq_of_lt (by omega)]

lemma wrapInc_of_lt {n i : ℕ} (h : i + 1 < n) : wrapInc n i = i + 1 :=
  Nat.mod_eq_of_lt h

lemma wrapInc_last {n : ℕ} (hn : 0 < n) : wrapInc n (n - 1) = 0 := by
  unfold wrapInc
  have h : n - 1 + 1 = n := by omega
  rw [h, Nat.mod_self]

/-- The wrap-around convolution of `Board.neighbors` agrees entrywise with
direct 8-neighbour summation under modular indexing. -/
lemma neighbors_eq_neighborCount (g : Grid) {n i j : ℕ} (hi : i < n) (hj : j < n) :
    neighbors n g i j = neighborCount n g i j := by
  have hu0 : i + (n + 1) - 0 = i + 1 + n := by omega
  have hu1 : i + (n + 1) - 1 = i + n := by omega
  have hu2 : i + (n + 1) - 2 = i + (n - 1) := by omega
  have hv0 : j + (n + 1) - 0 = j + 1 + n := by omega
  have hv1 : j + (n + 1) - 1 = j + n := by omega
  have hv2 : j + (n + 1) - 2 = j + (n - 1) := by omega
  simp only [neighbors, kernel, Finset.sum_range_succ, Finset.sum_range_zero,
    hu0, hu1, hu2, hv0, hv1, hv2, Nat.add_mod_right,
    Nat.mod_eq_of_lt hi, Nat.mod_eq_of_lt hj]
  simp only [neighborCount, wrapDec, wrapInc]
  norm_num
  omega

/-- With a binary pre-state, the nested `np.where` of `next_step` collapses to
the canonical Life rule: birth needs exactly 3 (the `>= 3` in `becomes_alive`
is cut back to `== 3` because `dies` takes precedence for counts above 3). -/
lemma nextCell_rule (n : ℕ) (g : Grid) (r c : ℕ)
    (hb : idx g r c = 0 ∨ idx g r c = 1) :
    nextCell n g r c =
      if idx g r c = 1 then
        (if neighbors n g r c = 2 ∨ neighbors n g r c = 3 then 1 else 0)
      else (if neighbors n g r c = 3 then 1 else 0) := by
  unfold nextCell
  split_ifs <;> omega

/-! ### C1: the transition rule -/

/-- C1: `next_step` rewrites every cell simultaneously from the pre-transition
grid and its pre-transition neighbour counts: a live cell with count < 2 or
> 3 dies, a live cell with count 2 or 3 survives, a dead cell becomes alive
iff its count is exactly 3 (not ≥ 3), and every other dead cell stays dead. -/
theorem claim_C1_transition_rule (n : ℕ) (g : Grid) (r c : ℕ)
    (hr : r < n) (hc : c < n) (hb : idx g r c = 0 ∨ idx g r c = 1) :
    (idx g r c = 1 →
      ((neighbors n g r c < 2 ∨ 3 < neighbors n g r c →
          idx (nextGrid n g) r c = 0) ∧
        (neighbors n g r c = 2 ∨ neighbors n g r c = 3 →
          idx (nextGrid n g) r c = 1))) ∧
    (idx g r c = 0 →
      ((idx (nextGrid n g) r c = 1 ↔ neighbors n g r c = 3) ∧
        (neighbors n g r c ≠ 3 → idx (nextGrid n g) r c = 0))) := by
  have hg : idx (nextGrid n g) r c = nextCell n g r c :=
    idx_mkGrid n (nextCell n g) hr hc
  rw [nextCell_rule n g r c hb] at hg
  constructor
  · intro h1
    rw [hg, if_pos h1]
    constructor <;> intro hcnt <;> split_ifs <;> omega
  · intro h0
    rw [hg, if_neg (by omega)]
    constructor
    · constructor <;> intro hcnt
      · by_contra hne
        rw [if_neg hne] at hcnt
        omega
      · rw [if_pos hcnt]
    · intro hne
      rw [if_neg hne]

theorem claim_C1_transition_rule_witness :
    ((0 : ℕ) < 3 ∧ (1 : ℕ) < 3 ∧
        (idx [[1, 1, 0], [0, 0, 0], [0, 0, 0]] 0 1 = 0 ∨
          idx [[1, 1, 0], [0, 0, 0], [0, 0, 0]] 0 1 = 1)) ∧
      ((idx [[1, 1, 0], [0, 0, 0], [0, 0, 0]] 0 1 = 1 →
        ((neighbors 3 [[1, 1, 0], [0, 0, 0], [0, 0, 0]] 0 1 < 2 ∨
            3 < neighbors 3 [[1, 1, 0], [0, 0, 0], [0, 0, 0]] 0 1 →
            idx (nextGrid 3 [[1, 1, 0], [0, 0, 0], [0, 0, 0]]) 0 1 = 0) ∧
          (neighbors 3 [[1, 1, 0], [0, 0, 0], [0, 0, 0]] 0 1 = 2 ∨
            neighbors 3 [[1, 1, 0], [0, 0, 0], [0, 0, 0]] 0 1 = 3 →
            idx (nextGrid 3 [[1, 1, 0], [0, 0, 0], [0, 0, 0]]) 0 1 = 1))) ∧
      (idx [[1, 1, 0], [0, 0, 0], [0, 0, 0]] 0 1 = 0 →
        ((idx (nextGrid 3 [[1, 1, 0], [0, 0, 0], [0, 0, 0]]) 0 1 = 1 ↔
            neighbors 3 [[1, 1, 0], [0, 0, 0], [0, 0, 0]] 0 1 = 3) ∧
          (neighbors 3 [[1, 1, 0], [0, 0, 0], [0, 0, 0]] 0 1 ≠ 3 →
            idx (nextGrid 3 [[1, 1, 0], [0, 0, 0], [0, 0, 0]]) 0 1 = 0)))) :=
  ⟨⟨by decide, by decide, by decide⟩,
    claim_C1_transition_rule 3 [[1, 1, 0], [0, 0, 0], [0, 0, 0]] 0 1
      (by decide) (by decide) (by decide)⟩

/-! ### C2: neighbour counting -/

/-- C2: on an `N × N` board with binary cells, every entry of the `neighbors`
convolution equals the direct 8-neighbour sum with modular (toroidal)
indexing, and lies between 0 and 8. -/
theorem claim_C2_neighbors (n : ℕ) (g : Grid) (i j : ℕ)
    (hi : i < n) (hj : j < n)
    (hbin : ∀ r < n, ∀ c < n, idx g r c ≤ 1) :
    neighbors n g i j = neighborCount n g i j ∧ neighborCount n g i j ≤ 8 := by
  have hn : 0 < n := by omega
  refine ⟨neighbors_eq_neighborCount g hi hj, ?_⟩
  have h1 := hbin _ (wrapDec_lt hn i) _ (wrapDec_lt hn j)
  have h2 := hbin _ (wrapDec_lt hn i) _ hj
  have h3 := hbin _ (wrapDec_lt hn i) _ (wrapInc_lt hn j)
  have h4 := hbin _ hi _ (wrapDec_lt hn j)
  have h5 := hbin _ hi _ (wrapInc_lt hn j)
  have h6 := hbin _ (wrapInc_lt hn i) _ (wrapDec_lt hn j)
  have h7 := hbin _ (wrapInc_lt hn i) _ hj
  have h8 := hbin _ (wrapInc_lt hn i) _ (wrapInc_lt hn j)
  unfold neighborCount
  omega

theorem claim_C2_neighbors_witness :
    ((0 : ℕ) < 3 ∧ (0 : ℕ) < 3 ∧
        (∀ r < 3, ∀ c < 3, idx [[1, 0, 1], [0, 1, 0], [1, 0, 1]] r c ≤ 1)) ∧
      (neighbors 3 [[1, 0, 1], [0, 1, 0], [1, 0, 1]] 0 0 =
          neighborCount 3 [[1, 0, 1], [0, 1, 0], [1, 0, 1]] 0 0 ∧
        neighborCount 3 [[1, 0, 1], [0, 1, 0], [1, 0, 1]] 0 0 ≤ 8) :=
  ⟨⟨by decide, by decide, by decide⟩,
    claim_C2_neighbors 3 [[1, 0, 1], [0, 1, 0], [1, 0, 1]] 0 0
      (by decide) (by decide) (by decide)⟩

/-! ### C3: the step counter -/

/-- C3 counterexample: the claim says that after one `next_step` call on a
fresh board `step = 1`; in the code `next_step` never touches `_step`, so it
is still 0. -/
theorem claim_C3_counterexample :
    (Board.next_step (Board.fresh 6)).step = 0 ∧
      ¬(Board.next_step (Board.fresh 6)).step = 1 := by
  decide

/-- C3 amended: `step` starts at 0 and is left unchanged by `next_step`;
it is instead incremented by exactly 1 per `render_rich_table` call, so after
`k` renders on a fresh board it equals `k`. -/
theorem claim_C3_step_counter (n k : ℕ) :
    (Board.fresh n).step = 0 ∧
      ((Board.next_step)^[k] (Board.fresh n)).step = 0 ∧
      ((Board.render_rich_table)^[k] (Board.fresh n)).step = k := by
  refine ⟨rfl, ?_, ?_⟩
  · induction k with
    | zero => rfl
    | succ k ih =>
      rw [Function.iterate_succ_apply']
      exact ih
  · induction k with
    | zero => rfl
    | succ k ih =>
      rw [Function.iterate_succ_apply']
      have h : ∀ b : Board, (Board.render_rich_table b).step = b.step + 1 :=
        fun _ => rfl
      rw [h, ih]
      push_cast
      ring

/-! ### C4: the history bound -/

/-- C4: the history-capacity claim fails on the code.  The
`previous_boards` setter only evicts when the list is already *strictly
longer* than `MAX_PREVIOUS_BOARDS` (`>` instead of `>=`), so after 11
`next_step` calls on a fresh board the history holds 11 > 10 snapshots. -/
theorem claim_C4_history_overflow :
    ((Board.next_step)^[11] (Board.fresh 1)).previousBoards.length = 11 ∧
      MAX_PREVIOUS_BOARDS < 11 := by
  decide

/-! ### C5: size validation -/

/-- C5 counterexample: constructing with the non-positive size 0 does not
fail — it silently yields a degenerate 0×0 board — and the size setter also
accepts 0 (it only rejects strictly negative values). -/
theorem claim_C5_counterexample :
    Board.make 0 = Except.ok (Board.fresh 0) ∧
      (Board.fresh 0).cells = [] ∧
      (Board.fresh 0).size = 0 ∧
      Board.set_size (Board.fresh 3) 0 = Except.ok { Board.fresh 3 with size := 0 } := by
  decide

/-- C5 amended: only *negative* sizes are rejected (the constructor through
numpy's `ValueError` for negative dimensions, the setter through its explicit
`value < 0` check); size 0 is accepted by both and silently yields a
degenerate zero-size configuration. -/
theorem claim_C5_size_validation (v : ℤ) (b : Board) (hv : v < 0) :
    Board.make v = Except.error "negative dimensions are not allowed" ∧
      Board.set_size b v = Except.error "Size cannot be negative" ∧
      Board.make 0 = Except.ok (Board.fresh 0) ∧
      Board.set_size b 0 = Except.ok { b with size := 0 } := by
  refine ⟨?_, ?_, rfl, ?_⟩
  · simp [Board.make, hv]
  · simp [Board.set_size, hv]
  · simp [Board.set_size]

theorem claim_C5_size_validation_witness :
    ((-2 : ℤ) < 0) ∧
      (Board.make (-2) = Except.error "negative dimensions are not allowed" ∧
        Board.set_size (Board.fresh 2) (-2) = Except.error "Size cannot be negative" ∧
        Board.make 0 = Except.ok (Board.fresh 0) ∧
        Board.set_size (Board.fresh 2) 0 = Except.ok { Board.fresh 2 with size := 0 }) :=
  ⟨by decide, claim_C5_size_validation (-2) (Board.fresh 2) (by decide)⟩

/-! ### C6: stability detection -/

/-- C6: `is_stable` returns true iff the history has reached its full
capacity (`MAX_PREVIOUS_BOARDS` entries) and the current grid equals, cell
for cell, at least one stored snapshot; with a shorter history it is false
unconditionally. -/
theorem claim_C6_is_stable (b : Board) :
    Board.is_stable b = true ↔
      MAX_PREVIOUS_BOARDS ≤ b.previousBoards.length ∧
        ∃ g ∈ b.previousBoards, g = b.cells := by
  unfold Board.is_stable
  split_ifs with h
  · simp [List.any_eq_true, h]
  · simp [h]

/-! ### C10: the step setter adds -/

/-- C10: the `step` setter is `self._step += value`, so assigning `v` leaves
the counter at its old value plus `v` (not at `v`, whenever the old value is
nonzero), and assigning the current value back doubles it. -/
theorem claim_C10_step_setter (b : Board) (v : ℤ) :
    (Board.set_step b v).step = b.step + v ∧
      (Board.set_step b b.step).step = 2 * b.step ∧
      (b.step ≠ 0 → (Board.set_step b v).step ≠ v) := by
  refine ⟨rfl, ?_, ?_⟩
  · show b.step + b.step = 2 * b.step
    ring
  · intro h
    show b.step + v ≠ v
    omega

theorem claim_C10_step_setter_witness :
    ((Board.set_step (Board.fresh 1) 2).step ≠ 0) ∧
      ((Board.set_step (Board.set_step (Board.fresh 1) 2) 7).step =
          (Board.set_step (Board.fresh 1) 2).step + 7 ∧
        (Board.set_step (Board.set_step (Board.fresh 1) 2)
            (Board.set_step (Board.fresh 1) 2).step).step =
          2 * (Board.set_step (Board.fresh 1) 2).step ∧
        ((Board.set_step (Board.fresh 1) 2).step ≠ 0 →
          (Board.set_step (Board.set_step (Board.fresh 1) 2) 7).step ≠ 7)) :=
  ⟨by decide, claim_C10_step_setter (Board.set_step (Board.fresh 1) 2) 7⟩

/-! ### C7: the 2×2 block is a still life -/

lemma idx_blockGrid (n i j r c : ℕ) (hr : r < n) (hc : c < n) :
    idx (blockGrid n i j) r c = rowInd i r * rowInd j c := by
  rw [blockGrid, idx_mkGrid n _ hr hc]
  unfold rowInd
  by_cases h1 : r = i ∨ r = i + 1 <;> by_cases h2 : c = j ∨ c = j + 1 <;>
    simp [h1, h2]

lemma rowSum_of_mem (n i r : ℕ) (hi1 : 1 ≤ i) (hi2 : i + 3 ≤ n)
    (hr : r = i ∨ r = i + 1) :
    rowInd i (wrapDec n r) + rowInd i r + rowInd i (wrapInc n r) = 2 := by
  rcases hr with h | h <;> subst h <;>
    rw [wrapDec_of_pos (by omega) (by omega), wrapInc_of_lt (by omega)] <;>
    unfold rowInd <;> split_ifs <;> omega

lemma rowSum_le_two (n i r : ℕ) (hi1 : 1 ≤ i) (hi2 : i + 3 ≤ n) (hr : r < n) :
    rowInd i (wrapDec n r) + rowInd i r + rowInd i (wrapInc n r) ≤ 2 := by
  by_cases h0 : r = 0
  · subst h0
    rw [wrapDec_zero (by omega), wrapInc_of_lt (by omega)]
    unfold rowInd
    split_ifs <;> omega
  · by_cases hl : r = n - 1
    · subst hl
      rw [wrapDec_of_pos (by omega) (by omega), wrapInc_last (by omega)]
      unfold rowInd
      split_ifs <;> omega
    · rw [wrapDec_of_pos (by omega) (by omega), wrapInc_of_lt (by omega)]
      unfold rowInd
      split_ifs <;> omega

/-- The block grid is separable, so the 8-neighbour count plus the centre is
the product of a row-window sum and a column-window sum. -/
lemma neighborCount_blockGrid (n i j r c : ℕ) (hr : r < n) (hc : c < n) :
    neighborCount n (blockGrid n i j) r c + idx (blockGrid n i j) r c =
      (rowInd i (wrapDec n r) + rowInd i r + rowInd i (wrapInc n r)) *
        (rowInd j (wrapDec n c) + rowInd j c + rowInd j (wrapInc n c)) := by
  have hn : 0 < n := by omega
  unfold neighborCount
  rw [idx_blockGrid n i j r c hr hc,
    idx_blockGrid n i j _ _ (wrapDec_lt hn r) (wrapDec_lt hn c),
    idx_blockGrid n i j _ _ (wrapDec_lt hn r) hc,
    idx_blockGrid n i j _ _ (wrapDec_lt hn r) (wrapInc_lt hn c),
    idx_blockGrid n i j _ _ hr (wrapDec_lt hn c),
    idx_blockGrid n i j _ _ hr (wrapInc_lt hn c),
    idx_blockGrid n i j _ _ (wrapInc_lt hn r) (wrapDec_lt hn c),
    idx_blockGrid n i j _ _ (wrapInc_lt hn r) hc,
    idx_blockGrid n i j _ _ (wrapInc_lt hn r) (wrapInc_lt hn c)]
  ring

lemma nextCell_blockGrid (n i j r c : ℕ) (hi1 : 1 ≤ i) (hi2 : i + 3 ≤ n)
    (hj1 : 1 ≤ j) (hj2 : j + 3 ≤ n) (hr : r < n) (hc : c < n) :
    nextCell n (blockGrid n i j) r c = idx (blockGrid n i j) r c := by
  have heq := neighbors_eq_neighborCount (blockGrid n i j) hr hc
  have hS := neighborCount_blockGrid n i j r c hr hc
  have hRle := rowSum_le_two n i r hi1 hi2 hr
  have hCle := rowSum_le_two n j c hj1 hj2 hc
  unfold nextCell
  rw [heq]
  by_cases hb : (r = i ∨ r = i + 1) ∧ (c = j ∨ c = j + 1)
  · have hcenter : idx (blockGrid n i j) r c = 1 := by
      rw [idx_blockGrid n i j r c hr hc]
      unfold rowInd
      split_ifs <;> omega
    have hR := rowSum_of_mem n i r hi1 hi2 hb.1
    have hC := rowSum_of_mem n j c hj1 hj2 hb.2
    rw [hR, hC, hcenter] at hS
    have hcount : neighborCount n (blockGrid n i j) r c = 3 := by omega
    rw [hcount, hcenter]
    norm_num
  · have hcenter : idx (blockGrid n i j) r c = 0 := by
      rw [idx_blockGrid n i j r c hr hc]
      unfold rowInd
      split_ifs <;> omega
    have hne3 : ∀ a ≤ 2, ∀ b ≤ 2, a * b ≠ 3 := by decide
    have h3 : neighborCount n (blockGrid n i j) r c ≠ 3 := by
      rw [hcenter] at hS
      rw [Nat.add_zero] at hS
      rw [hS]
      exact hne3 _ hRle _ hCle
    rw [hcenter]
    split_ifs <;> omega

lemma blockGrid_length (n i j : ℕ) : (blockGrid n i j).length = n := by
  unfold blockGrid
  exact mkGrid_length n _

lemma nextGrid_blockGrid (n i j : ℕ) (hi1 : 1 ≤ i) (hi2 : i + 3 ≤ n)
    (hj1 : 1 ≤ j) (hj2 : j + 3 ≤ n) :
    nextGrid n (blockGrid n i j) = blockGrid n i j := by
  unfold nextGrid
  conv_rhs => rw [blockGrid]
  unfold mkGrid
  apply List.map_congr_left
  intro r hr
  rw [List.mem_range] at hr
  apply List.map_congr_left
  intro c hc
  rw [List.mem_range] at hc
  rw [nextCell_blockGrid n i j r c hi1 hi2 hj1 hj2 hr hc]
  rw [blockGrid, idx_mkGrid n _ hr hc]

/-- C7: a 2×2 block of live cells placed away from the edges of a grid of
size at least 6 is a fixed point of `next_step`: the cell matrix is unchanged
by one call, hence by any number `k` of repeated calls. -/
theorem claim_C7_block_still_life (n i j k : ℕ) (_hn : 6 ≤ n)
    (hi1 : 1 ≤ i) (hi2 : i + 3 ≤ n) (hj1 : 1 ≤ j) (hj2 : j + 3 ≤ n) :
    ((Board.next_step)^[k] (blockBoard n i j)).cells = blockGrid n i j := by
  induction k with
  | zero => rfl
  | succ k ih =>
    rw [Function.iterate_succ_apply']
    show nextGrid ((Board.next_step)^[k] (blockBoard n i j)).cells.length
        ((Board.next_step)^[k] (blockBoard n i j)).cells = blockGrid n i j
    rw [ih, blockGrid_length]
    exact nextGrid_blockGrid n i j hi1 hi2 hj1 hj2

theorem claim_C7_block_still_life_witness :
    (6 ≤ 6 ∧ 1 ≤ 2 ∧ 2 + 3 ≤ 6 ∧ 1 ≤ 3 ∧ 3 + 3 ≤ 6) ∧
      ((Board.next_step)^[2] (blockBoard 6 2 3)).cells = blockGrid 6 2 3 :=
  ⟨by decide,
    claim_C7_block_still_life 6 2 3 2 (by decide) (by decide) (by decide)
      (by decide) (by decide)⟩

/-! ### C8: glider insertion -/

lemma getD_triple_left {α : Type} (A B C : List α) (d : α) (j : ℕ)
    (hj : j < A.length) :
    (A ++ B ++ C).getD j d = A.getD j d := by
  rw [List.getD_append _ _ _ _ (by simp; omega), List.getD_append _ _ _ _ hj]

lemma getD_triple_mid {α : Type} (A B C : List α) (d : α) (a m : ℕ)
    (hA : A.length = a) (hm : m < B.length) :
    (A ++ B ++ C).getD (a + m) d = B.getD m d := by
  subst hA
  rw [List.getD_append _ _ _ _ (by simp; omega)]
  rw [List.getD_append_right _ _ _ _ (by omega)]
  congr 1
  omega

lemma getD_triple_right {α : Type} (A B C : List α) (d : α) (a bn j : ℕ)
    (hA : A.length = a) (hB : B.length = bn) (hj : a + bn ≤ j) :
    (A ++ B ++ C).getD j d = C.getD (j - a - bn) d := by
  subst hA
  subst hB
  rw [List.getD_append_right _ _ _ _ (by simp; omega)]
  congr 1
  simp
  omega

lemma length_take_of_le' {α : Type} (l : List α) (n : ℕ) (h : n ≤ l.length) :
    (l.take n).length = n := by
  simp [List.length_take]
  omega

lemma zip_rows_length (g patch : Grid) (start : ℕ)
    (hpl : patch.length = 5) (hs : start + 5 ≤ g.length) :
    (List.zipWith (fun row prow => row.take start ++ prow ++ row.drop (start + 5))
      ((g.drop start).take 5) patch).length = 5 := by
  simp [hpl]
  omega

/-- Rows strictly before the written band are untouched. -/
lemma sliceAssign_row_lt (g patch : Grid) (start i : ℕ)
    (hi : i < start) (hs : start + 5 ≤ g.length) :
    (sliceAssign g start patch).getD i [] = g.getD i [] := by
  unfold sliceAssign
  have h1 : i < (g.take start).length := by
    rw [length_take_of_le' g start (by omega)]
    omega
  rw [getD_triple_left _ _ _ [] i h1]
  have h2 : i < g.length := by omega
  rw [List.getD_eq_getElem _ _ h1, List.getD_eq_getElem _ _ h2]
  simp

/-- Rows from `start + 5` on are untouched. -/
lemma sliceAssign_row_ge (g patch : Grid) (start i : ℕ)
    (hpl : patch.length = 5) (hi : start + 5 ≤ i) (hil : i < g.length) :
    (sliceAssign g start patch).getD i [] = g.getD i [] := by
  obtain ⟨m, rfl⟩ : ∃ m, i = start + 5 + m := ⟨i - start - 5, by omega⟩
  unfold sliceAssign
  rw [getD_triple_right _ _ _ [] start 5 _
    (length_take_of_le' g start (by omega))
    (zip_rows_length g patch start hpl (by omega)) (by omega)]
  rw [(by omega : start + 5 + m - start - 5 = m)]
  have hb : m < (g.drop (start + 5)).length := by
    simp
    omega
  rw [List.getD_eq_getElem _ _ hb, List.getD_eq_getElem _ _ hil]
  simp

/-- Row `start + m` of the written band, in closed form. -/
lemma sliceAssign_row_mid (g patch : Grid) (start m : ℕ) (hm : m < 5)
    (hpl : patch.length = 5) (hs : start + 5 ≤ g.length) :
    (sliceAssign g start patch).getD (start + m) [] =
      (g.getD (start + m) []).take start ++ patch.getD m [] ++
        (g.getD (start + m) []).drop (start + 5) := by
  unfold sliceAssign
  rw [getD_triple_mid _ _ _ [] start m
    (length_take_of_le' g start (by omega))
    (by rw [zip_rows_length g patch start hpl hs]; omega)]
  have hbz : m < (List.zipWith
      (fun row prow => row.take start ++ prow ++ row.drop (start + 5))
      ((g.drop start).take 5) patch).length := by
    rw [zip_rows_length g patch start hpl hs]
    omega
  rw [List.getD_eq_getElem _ _ hbz, List.getElem_zipWith]
  have hb : start + m < g.length := by omega
  rw [List.getD_eq_getElem g [] hb, List.getD_eq_getElem patch [] (by omega)]
  simp

lemma getD_mem {α : Type} (l : List α) (i : ℕ) (d : α) (h : i < l.length) :
    l.getD i d ∈ l := by
  rw [List.getD_eq_getElem _ _ h]
  exact List.getElem_mem _

lemma getD_take (l : List ℕ) (s j : ℕ) (hj : j < s) :
    (l.take s).getD j 0 = l.getD j 0 := by
  rcases Nat.lt_or_ge j l.length with h | h
  · rw [List.getD_eq_getElem _ _ (by simp; omega), List.getD_eq_getElem _ _ h]
    simp
  · rw [List.getD_eq_getElem?_getD, List.getD_eq_getElem?_getD,
      List.getElem?_eq_none (by simp; omega), List.getElem?_eq_none (by omega)]

lemma getD_drop (l : List ℕ) (s j : ℕ) :
    (l.drop s).getD j 0 = l.getD (s + j) 0 := by
  rcases Nat.lt_or_ge (s + j) l.length with h | h
  · rw [List.getD_eq_getElem _ _ (by simp; omega), List.getD_eq_getElem _ _ h]
    simp
  · rw [List.getD_eq_getElem?_getD, List.getD_eq_getElem?_getD,
      List.getElem?_eq_none (by simp; omega), List.getElem?_eq_none (by omega)]

/-- Entries outside the written 5×5 band are untouched by slice assignment. -/
lemma idx_sliceAssign_outside (g patch : Grid) (start L i j : ℕ)
    (hgl : g.length = L) (hgr : ∀ row ∈ g, row.length = L)
    (hpl : patch.length = 5) (hpr : ∀ row ∈ patch, row.length = 5)
    (hs : start + 5 ≤ L) (hi : i < L) (hj : j < L)
    (hout : i < start ∨ start + 5 ≤ i ∨ j < start ∨ start + 5 ≤ j) :
    idx (sliceAssign g start patch) i j = idx g i j := by
  unfold idx
  rcases Nat.lt_or_ge i start with hlt | hge
  · rw [sliceAssign_row_lt g patch start i hlt (by omega)]
  · rcases Nat.lt_or_ge i (start + 5) with hmid | hge5
    · obtain ⟨m, rfl⟩ : ∃ m, i = start + m := ⟨i - start, by omega⟩
      rw [sliceAssign_row_mid g patch start m (by omega) hpl (by omega)]
      have hrl : (g.getD (start + m) []).length = L :=
        hgr _ (getD_mem g (start + m) [] (by omega))
      have hjout : j < start ∨ start + 5 ≤ j := by omega
      rcases hjout with hjlt | hjge
      · rw [getD_triple_left _ _ _ 0 j
          (by rw [length_take_of_le' _ start (by omega)]; omega)]
        exact getD_take _ start j hjlt
      · obtain ⟨q, rfl⟩ : ∃ q, j = start + 5 + q := ⟨j - start - 5, by omega⟩
        have hplen : (patch.getD m []).length = 5 :=
          hpr _ (getD_mem patch m [] (by omega))
        rw [getD_triple_right _ _ _ 0 start 5 _
          (length_take_of_le' _ start (by omega)) hplen (by omega)]
        rw [(by omega : start + 5 + q - start - 5 = q)]
        exact getD_drop _ (start + 5) q
    · rw [sliceAssign_row_ge g patch start i hpl hge5 (by omega)]

/-- Entries of the written 5×5 band come from the patch. -/
lemma idx_sliceAssign_inside (g patch : Grid) (start L m q : ℕ)
    (hgl : g.length = L) (hgr : ∀ row ∈ g, row.length = L)
    (hpl : patch.length = 5) (hpr : ∀ row ∈ patch, row.length = 5)
    (hs : start + 5 ≤ L) (hm : m < 5) (hq : q < 5) :
    idx (sliceAssign g start patch) (start + m) (start + q) = idx patch m q := by
  unfold idx
  rw [sliceAssign_row_mid g patch start m hm hpl (by omega)]
  have hrl : (g.getD (start + m) []).length = L :=
    hgr _ (getD_mem g (start + m) [] (by omega))
  have hplen : (patch.getD m []).length = 5 :=
    hpr _ (getD_mem patch m [] (by omega))
  rw [getD_triple_mid _ _ _ 0 start q
    (length_take_of_le' _ start (by omega)) (by omega)]

lemma sliceAssign_length (g patch : Grid) (start L : ℕ)
    (hgl : g.length = L) (hpl : patch.length = 5) (hs : start + 5 ≤ L) :
    (sliceAssign g start patch).length = L := by
  unfold sliceAssign
  simp [hgl, hpl]
  omega

lemma sliceAssign_row_lengths (g patch : Grid) (start L : ℕ)
    (hgl : g.length = L) (hgr : ∀ row ∈ g, row.length = L)
    (hpl : patch.length = 5) (hpr : ∀ row ∈ patch, row.length = 5)
    (hs : start + 5 ≤ L) :
    ∀ row ∈ sliceAssign g start patch, row.length = L := by
  intro row hrow
  rw [List.mem_iff_getElem] at hrow
  obtain ⟨i, hilt, heq⟩ := hrow
  have hiL : i < L := by
    rw [sliceAssign_length g patch start L hgl hpl hs] at hilt
    exact hilt
  have hgd : (sliceAssign g start patch).getD i [] = row := by
    rw [List.getD_eq_getElem _ _ hilt, heq]
  rcases Nat.lt_or_ge i start with hlt | hge
  · rw [sliceAssign_row_lt g patch start i hlt (by omega)] at hgd
    rw [← hgd]
    exact hgr _ (getD_mem g i [] (by omega))
  · rcases Nat.lt_or_ge i (start + 5) with hmid | hge5
    · obtain ⟨m, rfl⟩ : ∃ m, i = start + m := ⟨i - start, by omega⟩
      rw [sliceAssign_row_mid g patch start m (by omega) hpl (by omega)] at hgd
      rw [← hgd]
      simp only [List.length_append, List.length_take, List.length_drop]
      rw [hgr _ (getD_mem g (start + m) [] (by omega)),
        hpr _ (getD_mem patch m [] (by omega))]
      omega
    · rw [sliceAssign_row_ge g patch start i hpl hge5 (by omega)] at hgd
      rw [← hgd]
      exact hgr _ (getD_mem g i [] (by omega))

lemma gliderPatch_length (k : ℕ) : (gliderPatch k).length = 5 := by
  unfold gliderPatch
  have h4 : k % 4 = 0 ∨ k % 4 = 1 ∨ k % 4 = 2 ∨ k % 4 = 3 := by omega
  rcases h4 with h | h | h | h <;> rw [h] <;> decide

lemma gliderPatch_rows (k : ℕ) : ∀ row ∈ gliderPatch k, row.length = 5 := by
  unfold gliderPatch
  have h4 : k % 4 = 0 ∨ k % 4 = 1 ∨ k % 4 = 2 ∨ k % 4 = 3 := by omega
  rcases h4 with h | h | h | h <;> rw [h] <;> decide

/-- C8: `make_glider` on a board of size < 5 fails with the `randint`
`ValueError` and writes nothing; on a board of size ≥ 5 it overwrites exactly
the 5×5 region at offset `start = s % (size - 4) ∈ [0, size - 5]` (the same
offset on both axes) with the rotated padded glider, leaving every cell
outside that region untouched. -/
theorem claim_C8_make_glider (b : Board) (rot s : ℕ) :
    (b.size < 5 → Board.make_glider b rot s = Except.error "low >= high") ∧
      (5 ≤ b.size → dimsOk b →
        Board.make_glider b rot s =
            Except.ok { b with
              cells := sliceAssign b.cells (s % (b.size - 4)) (gliderPatch rot) } ∧
          s % (b.size - 4) + 5 ≤ b.size ∧
          (∀ i j, i < b.size → j < b.size →
            (i < s % (b.size - 4) ∨ s % (b.size - 4) + 5 ≤ i ∨
              j < s % (b.size - 4) ∨ s % (b.size - 4) + 5 ≤ j) →
            idx (sliceAssign b.cells (s % (b.size - 4)) (gliderPatch rot)) i j =
              idx b.cells i j) ∧
          (∀ m q, m < 5 → q < 5 →
            idx (sliceAssign b.cells (s % (b.size - 4)) (gliderPatch rot))
                (s % (b.size - 4) + m) (s % (b.size - 4) + q) =
              idx (gliderPatch rot) m q)) := by
  constructor
  · intro hlt
    unfold Board.make_glider
    rw [if_pos (by omega)]
  · intro hge hdims
    obtain ⟨hlen, hrows⟩ := hdims
    have hstart : s % (b.size - 4) < b.size - 4 := Nat.mod_lt _ (by omega)
    refine ⟨?_, by omega, ?_, ?_⟩
    · unfold Board.make_glider
      rw [if_neg (by omega)]
    · intro i j hi hj hout
      exact idx_sliceAssign_outside b.cells (gliderPatch rot) (s % (b.size - 4))
        b.size i j hlen hrows (gliderPatch_length rot) (gliderPatch_rows rot)
        (by omega) hi hj hout
    · intro m q hm hq
      exact idx_sliceAssign_inside b.cells (gliderPatch rot) (s % (b.size - 4))
        b.size m q hlen hrows (gliderPatch_length rot) (gliderPatch_rows rot)
        (by omega) hm hq

theorem claim_C8_make_glider_witness :
    ((Board.fresh 4).size < 5 ∧ 5 ≤ (Board.fresh 6).size ∧ dimsOk (Board.fresh 6)) ∧
      Board.make_glider (Board.fresh 4) 1 7 = Except.error "low >= high" ∧
      (Board.make_glider (Board.fresh 6) 1 7 =
          Except.ok { Board.fresh 6 with
            cells := sliceAssign (Board.fresh 6).cells (7 % ((Board.fresh 6).size - 4))
              (gliderPatch 1) } ∧
        7 % ((Board.fresh 6).size - 4) + 5 ≤ (Board.fresh 6).size ∧
        (∀ i j, i < (Board.fresh 6).size → j < (Board.fresh 6).size →
          (i < 7 % ((Board.fresh 6).size - 4) ∨
            7 % ((Board.fresh 6).size - 4) + 5 ≤ i ∨
            j < 7 % ((Board.fresh 6).size - 4) ∨
            7 % ((Board.fresh 6).size - 4) + 5 ≤ j) →
          idx (sliceAssign (Board.fresh 6).cells (7 % ((Board.fresh 6).size - 4))
              (gliderPatch 1)) i j =
            idx (Board.fresh 6).cells i j) ∧
        (∀ m q, m < 5 → q < 5 →
          idx (sliceAssign (Board.fresh 6).cells (7 % ((Board.fresh 6).size - 4))
              (gliderPatch 1)) (7 % ((Board.fresh 6).size - 4) + m)
              (7 % ((Board.fresh 6).size - 4) + q) =
            idx (gliderPatch 1) m q)) :=
  ⟨⟨by decide, by decide, by decide⟩,
    (claim_C8_make_glider (Board.fresh 4) 1 7).1 (by decide),
    (claim_C8_make_glider (Board.fresh 6) 1 7).2 (by decide) (by decide)⟩

/-! ### C9: the dimensions invariant -/

/-- C9 counterexample: assigning a new size through the size setter succeeds
but does not resize `cells`, so afterwards the cell matrix is 3×3 while
`size` is 5 — the claimed invariant fails for the size-assignment operation. -/
theorem claim_C9_counterexample :
    Board.set_size (Board.fresh 3) 5 = Except.ok { Board.fresh 3 with size := 5 } ∧
      ({ Board.fresh 3 with size := 5 } : Board).cells.length = 3 ∧
      ({ Board.fresh 3 with size := 5 } : Board).size = 5 ∧
      ¬dimsOk { Board.fresh 3 with size := 5 } := by
  decide

lemma dimsOk_fresh (n : ℕ) : dimsOk (Board.fresh n) := by
  constructor
  · exact mkGrid_length n _
  · intro row hrow
    show row.length = n
    have h2 : row ∈ mkGrid n (fun _ _ => 0) := hrow
    unfold mkGrid at h2
    rw [List.mem_map] at h2
    obtain ⟨i, _, rfl⟩ := h2
    simp

/-- C9 amended: the dimensions invariant `cells` = `size × size` is
established by construction and preserved by `clear`, `randomize_board`,
`next_step` and successful `make_glider`; the size setter breaks it (it
updates `size` without resizing `cells`, see the counterexample). -/
theorem claim_C9_dimensions (n : ℕ) (b b' : Board) (rnd : ℕ → ℕ → Bool)
    (rot s : ℕ) (hdims : dimsOk b) :
    dimsOk (Board.fresh n) ∧
      dimsOk (Board.clear b) ∧
      dimsOk (Board.randomize_board b rnd) ∧
      dimsOk (Board.next_step b) ∧
      (Board.make_glider b rot s = Except.ok b' → dimsOk b') := by
  obtain ⟨hlen, hrows⟩ := hdims
  refine ⟨dimsOk_fresh n, ⟨?_, ?_⟩, ⟨?_, ?_⟩, ⟨?_, ?_⟩, ?_⟩
  · show (b.cells.map fun row => row.map fun _ => 0).length = b.size
    rw [List.length_map]
    exact hlen
  · intro row hrow
    show row.length = b.size
    have h2 : row ∈ b.cells.map (fun row => row.map fun _ => 0) := hrow
    rw [List.mem_map] at h2
    obtain ⟨row0, hmem, rfl⟩ := h2
    rw [List.length_map]
    exact hrows row0 hmem
  · show (mkGrid b.size _).length = b.size
    exact mkGrid_length _ _
  · intro row hrow
    show row.length = b.size
    have h2 : row ∈ mkGrid b.size (fun i j => if rnd i j then 1 else 0) := hrow
    unfold mkGrid at h2
    rw [List.mem_map] at h2
    obtain ⟨i, _, rfl⟩ := h2
    simp
  · show (nextGrid b.cells.length b.cells).length = b.size
    unfold nextGrid
    rw [mkGrid_length, hlen]
  · intro row hrow
    show row.length = b.size
    have h2 : row ∈ nextGrid b.cells.length b.cells := hrow
    unfold nextGrid mkGrid at h2
    rw [List.mem_map] at h2
    obtain ⟨i, _, rfl⟩ := h2
    simp [hlen]
  · intro hok
    unfold Board.make_glider at hok
    by_cases hv : b.size ≤ 4
    · rw [if_pos hv] at hok
      exact absurd hok (by simp)
    · rw [if_neg hv] at hok
      have hstart : s % (b.size - 4) < b.size - 4 := Nat.mod_lt _ (by omega)
      have hb' : b' = { b with
          cells := sliceAssign b.cells (s % (b.size - 4)) (gliderPatch rot) } := by
        cases hok
        rfl
      subst hb'
      constructor
      · exact sliceAssign_length b.cells (gliderPatch rot) _ b.size hlen
          (gliderPatch_length rot) (by omega)
      · exact sliceAssign_row_lengths b.cells (gliderPatch rot) _ b.size hlen
          hrows (gliderPatch_length rot) (gliderPatch_rows rot) (by omega)

theorem claim_C9_dimensions_witness :
    dimsOk (Board.fresh 2) ∧
      (dimsOk (Board.fresh 7) ∧
        dimsOk (Board.clear (Board.fresh 7)) ∧
        dimsOk (Board.randomize_board (Board.fresh 7) fun _ _ => true) ∧
        dimsOk (Board.next_step (Board.fresh 7)) ∧
        (Board.make_glider (Board.fresh 7) 2 3 = Except.ok (Board.fresh 2) →
          dimsOk (Board.fresh 2))) :=
  ⟨by decide,
    claim_C9_dimensions 7 (Board.fresh 7) (Board.fresh 2) (fun _ _ => true) 2 3
      (by decide)⟩
